import Mathlib

/-!
Verification of `jishaku.codeblocks` (file `src/jishaku/codeblocks.py`).

Strings are modelled as `List Char`.  The backtick character (code point 96)
is written `btick` throughout to keep the development readable.

The central definition is `codeblock_converter`, a direct shallow embedding
of the Python function of the same name: a single left-to-right pass over
the characters of the argument, keeping
  * `last`: a deque of the at most 3 most recently seen characters
    (`collections.deque(maxlen=3)`),
  * `backticks`: the count of backticks seen while not in the code/language
    phases,
  * two phase flags `in_language` / `in_code`,
  * the accumulated `language` and `code` character buffers,
followed by a corrective slice `code[len(language):-backticks]`.
-/

set_option autoImplicit false

namespace Jishaku

/-- The backtick character (code point 96). -/
def btick : Char := Char.ofNat 96

/-- A resolved chat message; only its text content matters here. -/
structure Message where
  content : List Char
deriving DecidableEq, Repr

/-- Embedding of the `Codeblock` named tuple.

`language` is `none` exactly on the Python `None`; the scan path always
produces `some` of the (possibly empty) joined language buffer. -/
structure Codeblock where
  language : Option (List Char)
  content : List Char
  message : Option Message := none
deriving DecidableEq, Repr

/-- `deque(maxlen=3).append`: push `c` at the right, evicting the leftmost
element when the deque already holds 3 characters. -/
def dequePush (l : List Char) (c : Char) : List Char :=
  if l.length < 3 then l ++ [c] else l.drop 1 ++ [c]

/-- The loop state of `codeblock_converter`'s character scan. -/
structure ScanState where
  last : List Char
  backticks : Nat
  in_language : Bool
  in_code : Bool
  language : List Char
  code : List Char
deriving DecidableEq, Repr

/-- `if char == "`" and not in_code and not in_language: backticks += 1`:
the backtick count after this iteration's first statement. -/
def btCount (s : ScanState) (char : Char) : Nat :=
  if char = btick ∧ s.in_code = false ∧ s.in_language = false then s.backticks + 1
  else s.backticks

/-- The second `if` of the loop body (Python `and` binds tighter than `or`):
`last and last[-1] == "`" and char != "`" or in_code and "".join(last) != "`" * backticks`,
evaluated after the backtick count was updated. -/
def codeCond (s : ScanState) (char : Char) : Prop :=
  (s.last.getLast? = some btick ∧ char ≠ btick) ∨
    (s.in_code = true ∧ s.last ≠ List.replicate (btCount s char) btick)

instance (s : ScanState) (char : Char) : Decidable (codeCond s char) := by
  unfold codeCond; exact inferInstance

/-- One iteration of the `for char in argument` loop of
`codeblock_converter`, in the exact statement order of the Python source:
backtick counting (`btCount`), then the code-append condition (`codeCond`),
then the newline/language `if`/`elif` chain, then `last.append(char)`. -/
def scanStep (s : ScanState) (char : Char) : ScanState :=
  let inCode1 : Bool := if codeCond s char then true else s.in_code
  let code1 : List Char := if codeCond s char then s.code ++ [char] else s.code
  -- if char == "\n": ... elif "".join(last) == "`" * 3 and char != "`": ... elif in_language: ...
  if char = '\n' then
    { last := dequePush s.last char, backticks := btCount s char
      in_language := false, in_code := true
      language := s.language, code := code1 }
  else if s.last = List.replicate 3 btick ∧ char ≠ btick then
    { last := dequePush s.last char, backticks := btCount s char
      in_language := true, in_code := inCode1
      language := s.language ++ [char], code := code1 }
  else if s.in_language then
    { last := dequePush s.last char, backticks := btCount s char
      in_language := s.in_language, in_code := inCode1
      -- the Python guard `if char != "\n"` inside this elif, kept verbatim
      language := if char = '\n' then s.language else s.language ++ [char]
      code := code1 }
  else
    { last := dequePush s.last char, backticks := btCount s char
      in_language := s.in_language, in_code := inCode1
      language := s.language, code := code1 }

/-- The scan loop starts with an empty deque, zero backticks, both phase
flags clear and empty buffers. -/
def initState : ScanState :=
  { last := [], backticks := 0, in_language := false, in_code := false
    language := [], code := [] }

/-- Run the scan loop over a whole character list. -/
def scanChars (l : List Char) : ScanState :=
  l.foldl scanStep initState

/-- The trailing window of a processed character list: its last at most
three characters.  The scan loop's deque always equals `wlast` of the
characters processed so far (`scanChars_last`). -/
def wlast (l : List Char) : List Char := l.drop (l.length - 3)

/-- Python's `code[a:-b]` for a list, with `a, b ≥ 0`: the elements at
indices `i` with `a ≤ i < code.length - b`.  For `b = 0` Python's `-0` is
`0`, so the slice `code[a:0]` is empty. -/
def pyNegSlice (code : List Char) (a b : Nat) : List Char :=
  if b = 0 then [] else (code.take (code.length - b)).drop a

/-- Embedding of `codeblock_converter(argument, message=None)`.

If the argument does not start with a backtick the input is returned
verbatim with `language = None`.  Otherwise the scan loop runs, the
salvage fallback (`if not code and not language: code[:] = last`) applies,
and the result is `Codeblock("".join(language), "".join(code[len(language):-backticks]))`. -/
def codeblock_converter (argument : List Char) (message : Option Message := none) :
    Codeblock :=
  if argument.head? = some btick then
    let s := scanChars argument
    let code := if s.code = [] ∧ s.language = [] then s.last else s.code
    { language := some s.language
      content := pyNegSlice code s.language.length s.backticks
      message := message }
  else
    { language := none, content := argument, message := message }

/-- Python `s.find(pat)`: the least index at which `pat` occurs as a
substring of `s`, or `none` where Python returns `-1`. -/
def strFind (pat : List Char) : List Char → Option Nat
  | [] => if pat = [] then some 0 else none
  | c :: t =>
    if pat.isPrefixOf (c :: t) then some 0
    else (strFind pat t).map (· + 1)

/-- The first element of `toks` that contains `pat` as a substring,
returned as its suffix starting at the first occurrence of `pat`
(`string[string.find(codeblock):]` in the Python source). -/
def firstFenceSuffix (pat : List Char) : List (List Char) → Option (List Char)
  | [] => none
  | t :: rest =>
    match strFind pat t with
    | some i => some (t.drop i)
    | none => firstFenceSuffix pat rest

/-- Embedding of `CodeblockFromMessage.remove_before_codeblock`:
split the message text on single spaces, and if some token contains
`"```"`, overwrite token 0 with that token's suffix from the fence and
rejoin everything with single spaces; otherwise rejoin unchanged.
(The `if not contents` guard is dead: Python's `split(" ")` never returns
an empty list, and neither does `List.splitOn`.) -/
def remove_before_codeblock (message : Message) : Option (List Char) :=
  let contents : List (List Char) := message.content.splitOn ' '
  if contents = [] then none
  else
    match firstFenceSuffix (List.replicate 3 btick) contents with
    | some suffix => some (List.intercalate [' '] (suffix :: contents.tail))
    | none => some (List.intercalate [' '] contents)

/-- Python truthiness of `X or Y` for `X : Optional[str]`: `Y` when `X` is
`None` or the empty string, else `X`. -/
def pyOrElse (x : Option (List Char)) (y : List Char) : List Char :=
  match x with
  | none => y
  | some s => if s = [] then y else s

/-- Embedding of `CodeblockFromMessage.convert`.  The message lookup is an
external asynchronous collaborator; its outcome is the `lookup` argument
(`none` models `MessageNotFound`).  On failure the raw argument is scanned;
on success `remove_before_codeblock` output (falling back to the raw
argument when falsy) is scanned. -/
def convert (lookup : Option Message) (argument : List Char) : Codeblock :=
  match lookup with
  | none => codeblock_converter argument
  | some msg => codeblock_converter (pyOrElse (remove_before_codeblock msg) argument)

/-! ### Basic facts about the scan loop -/

theorem scanStep_last (s : ScanState) (c : Char) :
    (scanStep s c).last = dequePush s.last c := by
  unfold scanStep
  split_ifs <;> rfl

theorem scanStep_code (s : ScanState) (c : Char) :
    (scanStep s c).code = s.code ∨ (scanStep s c).code = s.code ++ [c] := by
  unfold scanStep
  split_ifs <;> simp

theorem scanStep_code_length (s : ScanState) (c : Char) :
    (scanStep s c).code.length ≤ s.code.length + 1 := by
  rcases scanStep_code s c with h | h <;> rw [h] <;> simp

theorem scanStep_last_length (s : ScanState) (c : Char) :
    (scanStep s c).last.length ≤ s.last.length + 1 := by
  rw [scanStep_last]
  unfold dequePush
  split <;> simp

theorem foldl_scanStep_length (l : List Char) :
    ∀ s : ScanState,
      (l.foldl scanStep s).code.length ≤ s.code.length + l.length ∧
        (l.foldl scanStep s).last.length ≤ s.last.length + l.length := by
  induction l with
  | nil => intro s; simp
  | cons c t ih =>
    intro s
    have h := ih (scanStep s c)
    have h1 := scanStep_code_length s c
    have h2 := scanStep_last_length s c
    simp only [List.foldl_cons, List.length_cons]
    omega

theorem pyNegSlice_length (code : List Char) (a b : Nat) :
    (pyNegSlice code a b).length ≤ code.length := by
  unfold pyNegSlice
  split
  · simp
  · simp only [List.length_drop, List.length_take]
    omega

/-- The fast path of `codeblock_converter`: an argument that does not start
with a backtick comes back verbatim with `language = none`. -/
theorem codeblock_converter_of_head_ne (s : List Char) (h : s.head? ≠ some btick) :
    codeblock_converter s = { language := none, content := s } := by
  unfold codeblock_converter
  rw [if_neg h]

/-! ### The trailing window -/

theorem dequePush_wlast (p : List Char) (c : Char) :
    dequePush (wlast p) c = wlast (p ++ [c]) := by
  by_cases h : p.length < 3
  · have h1 : wlast p = p := by
      unfold wlast
      have e : p.length - 3 = 0 := by omega
      simp [e]
    have h2 : wlast (p ++ [c]) = p ++ [c] := by
      unfold wlast
      have e : (p ++ [c]).length - 3 = 0 := by
        simp only [List.length_append, List.length_cons, List.length_nil]
        omega
      rw [e]
      exact List.drop_zero _
    rw [h1, h2]
    unfold dequePush
    rw [if_pos h]
  · have hlen : (wlast p).length = 3 := by
      unfold wlast
      simp only [List.length_drop]
      omega
    unfold dequePush
    rw [if_neg (by rw [hlen]; omega)]
    unfold wlast
    rw [List.drop_drop]
    have e1 : p.length - 3 + 1 = p.length - 2 := by omega
    have e2 : (p ++ [c]).length - 3 = p.length - 2 := by
      simp only [List.length_append, List.length_cons, List.length_nil]
      omega
    rw [e1, e2, List.drop_append_of_le_length (by omega)]

theorem scanChars_append_one (X : List Char) (c : Char) :
    scanChars (X ++ [c]) = scanStep (scanChars X) c := by
  unfold scanChars
  rw [List.foldl_append]
  rfl

theorem scanChars_last (l : List Char) : (scanChars l).last = wlast l := by
  induction l using List.reverseRecOn with
  | nil => rfl
  | append_singleton X c ih =>
    rw [scanChars_append_one, scanStep_last, ih, dequePush_wlast]

theorem wlast_ne_fence_of_getLast (X : List Char) (c : Char)
    (hX : X.getLast? = some c) (hc : c ≠ btick) :
    wlast X ≠ List.replicate 3 btick := by
  intro hEq
  have hsuf : List.replicate 3 btick <:+ X := hEq ▸ List.drop_suffix _ _
  obtain ⟨t, ht⟩ := hsuf
  rw [← ht, List.getLast?_append_of_ne_nil _ (by decide)] at hX
  have hb : (List.replicate 3 btick).getLast? = some btick := by decide
  rw [hb] at hX
  exact hc (Option.some.inj hX).symm

theorem wlast_append_long (C q : List Char) (h : 3 ≤ q.length) :
    wlast (C ++ q) = wlast q := by
  unfold wlast
  rw [List.length_append]
  rw [show C.length + q.length - 3 = C.length + (q.length - 3) from by omega]
  exact List.drop_append _

theorem wlast_short_ne (D q : List Char) (h : q.length ≤ 2) :
    wlast (D ++ '\n' :: q) ≠ List.replicate 3 btick := by
  have hd : (D ++ '\n' :: q).length - 3 ≤ D.length := by
    simp only [List.length_append, List.length_cons]
    omega
  intro hEq
  have hw : wlast (D ++ '\n' :: q) =
      D.drop ((D ++ '\n' :: q).length - 3) ++ '\n' :: q :=
    List.drop_append_of_le_length hd
  rw [hw] at hEq
  have hmem : '\n' ∈ List.replicate 3 btick := by
    rw [← hEq]
    exact List.mem_append_right _ (List.mem_cons_self _ _)
  exact absurd (List.eq_of_mem_replicate hmem) (by decide)

/-- The trailing window of `(D ++ "\n") ++ q` is never a triple-backtick
fence, provided the fence is not a suffix of `q`: a short `q` leaves the
newline inside the window, a long `q` makes the window a suffix of `q`. -/
theorem window_ok (D q : List Char) (hq : ¬ List.replicate 3 btick <:+ q) :
    wlast ((D ++ ['\n']) ++ q) ≠ List.replicate 3 btick := by
  by_cases hlen : q.length ≤ 2
  · rw [List.append_assoc, List.singleton_append]
    exact wlast_short_ne D q hlen
  · rw [wlast_append_long _ q (by omega)]
    intro hEq
    exact hq (hEq ▸ List.drop_suffix _ _)

/-! ### Shapes of single scan steps -/

theorem btCount_of_in_code (s : ScanState) (c : Char) (hcode : s.in_code = true) :
    btCount s c = s.backticks := by
  unfold btCount
  rw [if_neg]
  rintro ⟨-, h2, -⟩
  rw [hcode] at h2
  cases h2

/-- A newline while the scanner is in the code phase and the window is not
a full closing fence: the newline is appended to the code buffer and the
language phase (if any) ends. -/
theorem scanStep_newline (s : ScanState) (hcode : s.in_code = true)
    (hlast : s.last ≠ List.replicate s.backticks btick) :
    scanStep s '\n' =
      { last := dequePush s.last '\n', backticks := s.backticks
        in_language := false, in_code := true
        language := s.language, code := s.code ++ ['\n'] } := by
  have hbt : btCount s '\n' = s.backticks := by
    unfold btCount
    rw [if_neg]
    rintro ⟨h1, -, -⟩
    exact absurd h1 (by decide)
  have hcc : codeCond s '\n' := Or.inr ⟨hcode, by rw [hbt]; exact hlast⟩
  unfold scanStep
  rw [if_pos (show ('\n' : Char) = '\n' from rfl), if_pos hcc, hbt]

/-- A non-newline character while in both the language and code phases,
with the window neither a full closing fence nor a triple backtick: the
character goes to both buffers. -/
theorem scanStep_in_language (s : ScanState) (c : Char)
    (hcode : s.in_code = true) (hlang : s.in_language = true) (hn : c ≠ '\n')
    (hlast : s.last ≠ List.replicate s.backticks btick)
    (hl3 : s.last ≠ List.replicate 3 btick) :
    scanStep s c =
      { last := dequePush s.last c, backticks := s.backticks
        in_language := true, in_code := true
        language := s.language ++ [c], code := s.code ++ [c] } := by
  have hbt : btCount s c = s.backticks := btCount_of_in_code s c hcode
  have hcc : codeCond s c := Or.inr ⟨hcode, by rw [hbt]; exact hlast⟩
  unfold scanStep
  rw [if_neg hn, if_neg (fun hh => hl3 hh.1), if_pos hlang, if_neg hn,
    if_pos hcc, if_pos hcc, hbt, hlang]

/-- A non-newline character while in the code phase only, with the window
neither a full closing fence nor a triple backtick: the character goes to
the code buffer and nothing else changes. -/
theorem scanStep_in_code_only (s : ScanState) (c : Char)
    (hcode : s.in_code = true) (hlang : s.in_language = false) (hn : c ≠ '\n')
    (hlast : s.last ≠ List.replicate s.backticks btick)
    (hl3 : s.last ≠ List.replicate 3 btick) :
    scanStep s c =
      { last := dequePush s.last c, backticks := s.backticks
        in_language := false, in_code := true
        language := s.language, code := s.code ++ [c] } := by
  have hbt : btCount s c = s.backticks := btCount_of_in_code s c hcode
  have hcc : codeCond s c := Or.inr ⟨hcode, by rw [hbt]; exact hlast⟩
  unfold scanStep
  rw [if_neg hn, if_neg (fun hh => hl3 hh.1),
    if_neg (show ¬s.in_language = true by rw [hlang]; exact Bool.false_ne_true),
    if_pos hcc, if_pos hcc, hbt, hlang]

/-- The first character after an opening triple-backtick fence (neither a
backtick nor a newline) starts both the language and code buffers. -/
theorem scanStep_open_fence (c : Char) (hc : c ≠ btick) (hn : c ≠ '\n') :
    scanStep ⟨List.replicate 3 btick, 3, false, false, [], []⟩ c =
      ⟨[btick, btick, c], 3, true, true, [c], [c]⟩ := by
  have hbt : btCount ⟨List.replicate 3 btick, 3, false, false, [], []⟩ c = 3 := by
    unfold btCount
    rw [if_neg]
    rintro ⟨h1, -, -⟩
    exact hc h1
  have hcc : codeCond ⟨List.replicate 3 btick, 3, false, false, [], []⟩ c :=
    Or.inl ⟨by decide, hc⟩
  unfold scanStep
  rw [if_neg hn, if_pos (show _ ∧ _ from ⟨rfl, hc⟩), if_pos hcc, if_pos hcc, hbt]
  rfl

/-- Running the scan over exactly an opening triple-backtick fence counts
three backticks and fills the window, leaving everything else untouched. -/
theorem fence_state :
    scanChars (List.replicate 3 btick) =
      ⟨List.replicate 3 btick, 3, false, false, [], []⟩ := by
  decide

/-! ### Alphanumeric characters -/

theorem alnum_ne_btick (c : Char) (h : c.isAlphanum = true) : c ≠ btick := by
  rintro rfl
  exact absurd h (by decide)

theorem alnum_ne_newline (c : Char) (h : c.isAlphanum = true) : c ≠ '\n' := by
  rintro rfl
  exact absurd h (by decide)

/-! ### The scan of a well-formed codeblock, phase by phase -/

/-- After the opening fence and a non-empty alphanumeric language tag, the
scanner is in both phases with the tag in both buffers. -/
theorem lang_state (pre : List Char) :
    (∀ c ∈ pre, c.isAlphanum = true) → pre ≠ [] →
    scanChars (List.replicate 3 btick ++ pre) =
      { last := wlast (List.replicate 3 btick ++ pre), backticks := 3
        in_language := true, in_code := true, language := pre, code := pre } := by
  induction pre using List.reverseRecOn with
  | nil => exact fun _ h => absurd rfl h
  | append_singleton q c ih =>
    intro halnum _
    have hcal : c.isAlphanum = true := halnum c (by simp)
    have hcb : c ≠ btick := alnum_ne_btick c hcal
    have hcn : c ≠ '\n' := alnum_ne_newline c hcal
    rw [← List.append_assoc, scanChars_append_one]
    by_cases hq : q = []
    · subst hq
      simp only [List.append_nil]
      rw [fence_state, scanStep_open_fence c hcb hcn]
      have hw : wlast (List.replicate 3 btick ++ [c]) = [btick, btick, c] := rfl
      rw [hw]
      simp
    · have hmem : ∀ x ∈ q, x.isAlphanum = true := fun x hx =>
        halnum x (List.mem_append_left _ hx)
      rw [ih hmem hq]
      obtain ⟨q', d, hqd⟩ := (List.eq_nil_or_concat q).resolve_left hq
      have hdal : d.isAlphanum = true := hmem d (by rw [hqd]; simp)
      have hglast : (List.replicate 3 btick ++ q).getLast? = some d := by
        rw [hqd, List.concat_eq_append, ← List.append_assoc]
        exact List.getLast?_concat _
      have hwin : wlast (List.replicate 3 btick ++ q) ≠ List.replicate 3 btick :=
        wlast_ne_fence_of_getLast _ d hglast (alnum_ne_btick d hdal)
      rw [scanStep_in_language _ c rfl rfl hcn hwin hwin]
      rw [dequePush_wlast, List.append_assoc]

/-- After the opening fence, the language tag and the separating newline,
the language phase is over and the code buffer holds the tag plus the
newline. -/
theorem newline_state (lang : List Char)
    (halnum : ∀ c ∈ lang, c.isAlphanum = true) (hne : lang ≠ []) :
    scanChars ((List.replicate 3 btick ++ lang) ++ ['\n']) =
      { last := wlast ((List.replicate 3 btick ++ lang) ++ ['\n']), backticks := 3
        in_language := false, in_code := true
        language := lang, code := lang ++ ['\n'] } := by
  rw [scanChars_append_one, lang_state lang halnum hne]
  obtain ⟨q', d, hqd⟩ := (List.eq_nil_or_concat lang).resolve_left hne
  have hdal : d.isAlphanum = true := halnum d (by rw [hqd]; simp)
  have hglast : (List.replicate 3 btick ++ lang).getLast? = some d := by
    rw [hqd, List.concat_eq_append, ← List.append_assoc]
    exact List.getLast?_concat _
  have hwin : wlast (List.replicate 3 btick ++ lang) ≠ List.replicate 3 btick :=
    wlast_ne_fence_of_getLast _ d hglast (alnum_ne_btick d hdal)
  rw [scanStep_newline _ rfl hwin, dequePush_wlast]

/-- While scanning the body of the codeblock (any prefix `q` of a body in
which no triple backtick occurs), the scanner stays in the pure code
phase and appends every character to the code buffer. -/
theorem body_state (lang body : List Char)
    (halnum : ∀ c ∈ lang, c.isAlphanum = true) (hne : lang ≠ [])
    (hnf : ¬ List.replicate 3 btick <:+: body) :
    ∀ q : List Char, q <+: body →
      scanChars (((List.replicate 3 btick ++ lang) ++ ['\n']) ++ q) =
        { last := wlast (((List.replicate 3 btick ++ lang) ++ ['\n']) ++ q)
          backticks := 3, in_language := false, in_code := true
          language := lang, code := (lang ++ ['\n']) ++ q } := by
  intro q
  induction q using List.reverseRecOn with
  | nil =>
    intro _
    simpa using newline_state lang halnum hne
  | append_singleton q' ch ih =>
    intro hpre
    have hq' : q' <+: body := (List.prefix_append q' [ch]).trans hpre
    have hwin : wlast (((List.replicate 3 btick ++ lang) ++ ['\n']) ++ q') ≠
        List.replicate 3 btick := by
      apply window_ok
      rintro ⟨u, hu⟩
      obtain ⟨v, hv⟩ := hpre
      exact hnf ⟨u, [ch] ++ v, by rw [← hv, ← hu]; simp [List.append_assoc]⟩
    rw [← List.append_assoc, scanChars_append_one, ih hq']
    by_cases hch : ch = '\n'
    · subst hch
      rw [scanStep_newline _ rfl hwin, dequePush_wlast]
      simp [List.append_assoc]
    · rw [scanStep_in_code_only _ ch rfl rfl hch hwin hwin, dequePush_wlast]
      simp [List.append_assoc]

/-- A triple backtick is not a suffix of a body that contains none. -/
theorem not_fence_suffix_body (body : List Char)
    (hnf : ¬ List.replicate 3 btick <:+: body) :
    ¬ List.replicate 3 btick <:+ body := by
  rintro ⟨u, hu⟩
  exact hnf ⟨u, [], by rw [List.append_nil]; exact hu⟩

/-- A triple backtick is not a suffix of `body ++ [btick]` when `body`
does not end in a backtick. -/
theorem not_fence_suffix_one (body : List Char)
    (hend : body.getLast? ≠ some btick) :
    ¬ List.replicate 3 btick <:+ body ++ [btick] := by
  rintro ⟨u, hu⟩
  rw [show List.replicate 3 btick = [btick, btick] ++ [btick] from rfl,
    ← List.append_assoc] at hu
  have h2 := List.append_cancel_right hu
  apply hend
  rw [← h2, List.getLast?_append_of_ne_nil _ (by decide)]
  rfl

/-- A triple backtick is not a suffix of `(body ++ [btick]) ++ [btick]`
when `body` does not end in a backtick. -/
theorem not_fence_suffix_two (body : List Char)
    (hend : body.getLast? ≠ some btick) :
    ¬ List.replicate 3 btick <:+ (body ++ [btick]) ++ [btick] := by
  rintro ⟨u, hu⟩
  rw [show List.replicate 3 btick = [btick, btick] ++ [btick] from rfl,
    ← List.append_assoc] at hu
  have h2 := List.append_cancel_right hu
  rw [show (u : List Char) ++ [btick, btick] = (u ++ [btick]) ++ [btick] from by
    rw [List.append_assoc]; rfl] at h2
  have h3 := List.append_cancel_right h2
  apply hend
  rw [← h3]
  exact List.getLast?_concat _

/-- The scan branch of `codeblock_converter`, written out. -/
theorem codeblock_converter_eq_of_scan (arg : List Char) (h : arg.head? = some btick) :
    codeblock_converter arg =
      { language := some (scanChars arg).language
        content := pyNegSlice
          (if (scanChars arg).code = [] ∧ (scanChars arg).language = []
            then (scanChars arg).last else (scanChars arg).code)
          (scanChars arg).language.length (scanChars arg).backticks } := by
  unfold codeblock_converter
  rw [if_pos h]

/-- The corrective final slice on the code buffer of a well-formed
codeblock: dropping the language from the front and the closing fence
from the back leaves the newline-prefixed body. -/
theorem slice_of_wellformed (lang body : List Char) :
    pyNegSlice (((((lang ++ ['\n']) ++ body) ++ [btick]) ++ [btick]) ++ [btick])
      lang.length 3 = '\n' :: body := by
  unfold pyNegSlice
  rw [if_neg (by omega : ¬ (3 = 0))]
  have hshape : ((((lang ++ ['\n']) ++ body) ++ [btick]) ++ [btick]) ++ [btick]
      = ((lang ++ ['\n']) ++ body) ++ [btick, btick, btick] := by
    simp [List.append_assoc]
  rw [hshape]
  have hlen : (((lang ++ ['\n']) ++ body) ++ [btick, btick, btick]).length - 3
      = ((lang ++ ['\n']) ++ body).length := by
    simp only [List.length_append, List.length_cons, List.length_nil]
    omega
  rw [hlen, List.take_left, List.append_assoc, List.drop_left, List.singleton_append]

/-! ### Claim theorems -/

/-- **C1** (counterexample): scanning `"```python\nprint(1)\n```"` does
not yield content `"print(1)\n"` — the scanner keeps the separator
newline at the front of the content. -/
theorem C1_counterexample :
    codeblock_converter ("```python\nprint(1)\n```".toList) ≠
      { language := some ("python".toList), content := ("print(1)\n".toList) } := by
  decide

/-- **C1** (amended): scanning `"```python\nprint(1)\n```"` returns the
pair `(language = "python", content = "\nprint(1)\n")`; the language/code
separator newline is included at the front of the content. -/
theorem C1_scan_python_example :
    codeblock_converter ("```python\nprint(1)\n```".toList) =
      { language := some ("python".toList), content := ("\nprint(1)\n".toList) } := by
  decide

/-- **C3**: for every string not starting with a backtick (the empty
string included), `codeblock_converter` returns `language = None` and the
input unchanged as content. -/
theorem C3_fast_path (s : List Char) (h : s.head? ≠ some btick) :
    codeblock_converter s = { language := none, content := s } :=
  codeblock_converter_of_head_ne s h

/-- Witness for **C3** at the concrete input `"hello"`. -/
theorem C3_fast_path_witness :
    ("hello".toList).head? ≠ some btick ∧
      codeblock_converter ("hello".toList) =
        { language := none, content := "hello".toList } :=
  ⟨by decide, C3_fast_path ("hello".toList) (by decide)⟩

/-- **C4**: `codeblock_converter` is a total function (the embedding is a
plain `def`), and the corrective slice `code[len(language):-backticks]`
never reaches out of range: on every input the content is a well-defined
string of length at most the input's length. -/
theorem C4_total_bounded (s : List Char) :
    (codeblock_converter s).content.length ≤ s.length := by
  by_cases hc : s.head? = some btick
  · unfold codeblock_converter
    rw [if_pos hc]
    dsimp only
    refine le_trans (pyNegSlice_length _ _ _) ?_
    have hfold := foldl_scanStep_length s initState
    split
    · simpa [scanChars, initState] using hfold.2
    · simpa [scanChars, initState] using hfold.1
  · rw [codeblock_converter_of_head_ne s hc]

/-- **C5** (code evaluation): on the message text `"a b ```c"`, the code's
`remove_before_codeblock` yields `"```c b ```c"` — it overwrites the
first whitespace token with the fence suffix of the first fence-bearing
token and keeps every later token — rather than `"```c"`, the text from
the first triple-backtick occurrence onward that the claim (and the
`convert` docstring, "strip all mentions and command name + prefix")
describes. -/
theorem C5_code_evaluation :
    remove_before_codeblock ⟨"a b ```c".toList⟩ = some ("```c b ```c".toList) ∧
      some ("```c b ```c".toList) ≠ some ("```c".toList) := by
  exact ⟨by decide, by decide⟩

/-- **C6**: when the message lookup reports `MessageNotFound`, `convert`
returns exactly `codeblock_converter` of the raw argument. -/
theorem C6_fallback (argument : List Char) :
    convert none argument = codeblock_converter argument := rfl

/-- **C7**: single-backtick fences are handled by the dynamically measured
backtick count: scanning `` "`x`" `` gives language `""` and content `"x"`. -/
theorem C7_single_backtick :
    codeblock_converter ("`x`".toList) =
      { language := some [], content := "x".toList } := by
  decide

/-- **C8**: scanning `"```"` takes the salvage path (both buffers empty,
code buffer replaced by the 3-character trailing window) and returns
language `""` with empty content. -/
theorem C8_degenerate_fence :
    codeblock_converter ("```".toList) =
      { language := some [], content := [] } := by
  decide

/-- **C9**: whenever `codeblock_converter` returns `language = none`, its
content re-scans to the very same result. -/
theorem C9_idempotent_unfenced (s : List Char)
    (h : (codeblock_converter s).language = none) :
    codeblock_converter ((codeblock_converter s).content) = codeblock_converter s := by
  by_cases hc : s.head? = some btick
  · exfalso
    unfold codeblock_converter at h
    rw [if_pos hc] at h
    simp at h
  · rw [codeblock_converter_of_head_ne s hc]
    exact codeblock_converter_of_head_ne s hc

/-- Witness for **C9** at the concrete input `"hi"`. -/
theorem C9_idempotent_unfenced_witness :
    codeblock_converter ((codeblock_converter ("hi".toList)).content) =
      codeblock_converter ("hi".toList) :=
  C9_idempotent_unfenced ("hi".toList) (by decide)

/-- **C10**: the resulting language is `none` exactly when the input does
not start with a backtick; every backtick-initial input (complete closing
fence or not) gets a `some` language, possibly the empty string. -/
theorem C10_language_none_iff (s : List Char) :
    (codeblock_converter s).language = none ↔ s.head? ≠ some btick := by
  by_cases hc : s.head? = some btick
  · unfold codeblock_converter
    rw [if_pos hc]
    simp [hc]
  · rw [codeblock_converter_of_head_ne s hc]
    simp [hc]

/-- **C2** (counterexample): the round trip at `lang = "a"`, `body = "b"`
does not recover `("a", "b")` — the content keeps the separator newline. -/
theorem C2_counterexample :
    codeblock_converter ("```a\nb```".toList) ≠
      { language := some ("a".toList), content := ("b".toList) } := by
  decide

/-- **C2** (amended): for every pair `(lang, body)` with `lang` a non-empty
alphanumeric string and `body` containing no run of three consecutive
backticks and not ending in a backtick, scanning
`"```" ++ lang ++ "\n" ++ body ++ "```"` returns exactly
`(language = lang, content = "\n" ++ body)`: the language/body separator
newline is kept at the front of the content.  (A `body` whose trailing
backticks merge with the closing fence must be excluded as well: the
merged run makes the scanner stop appending to the code buffer early.) -/
theorem C2_roundtrip_amended (lang body : List Char)
    (hne : lang ≠ []) (halnum : ∀ c ∈ lang, c.isAlphanum = true)
    (hnf : ¬ List.replicate 3 btick <:+: body)
    (hend : body.getLast? ≠ some btick) :
    codeblock_converter
        (List.replicate 3 btick ++ lang ++ ['\n'] ++ body ++ List.replicate 3 btick) =
      { language := some lang, content := '\n' :: body } := by
  have harg : List.replicate 3 btick ++ lang ++ ['\n'] ++ body ++ List.replicate 3 btick
      = (((((List.replicate 3 btick ++ lang) ++ ['\n']) ++ body) ++ [btick]) ++ [btick])
          ++ [btick] := by
    rw [show List.replicate 3 btick = [btick] ++ ([btick] ++ [btick]) from rfl]
    simp [List.append_assoc]
  have hS0 := body_state lang body halnum hne hnf body (List.prefix_refl body)
  have hw1 : wlast (((List.replicate 3 btick ++ lang) ++ ['\n']) ++ body) ≠
      List.replicate 3 btick :=
    window_ok _ body (not_fence_suffix_body body hnf)
  have hS1 : scanChars ((((List.replicate 3 btick ++ lang) ++ ['\n']) ++ body) ++ [btick]) =
      { last := wlast ((((List.replicate 3 btick ++ lang) ++ ['\n']) ++ body) ++ [btick])
        backticks := 3, in_language := false, in_code := true
        language := lang, code := ((lang ++ ['\n']) ++ body) ++ [btick] } := by
    rw [scanChars_append_one, hS0,
      scanStep_in_code_only _ btick rfl rfl (by decide) hw1 hw1, dequePush_wlast]
  have hw2 : wlast ((((List.replicate 3 btick ++ lang) ++ ['\n']) ++ body) ++ [btick]) ≠
      List.replicate 3 btick := by
    rw [List.append_assoc ((List.replicate 3 btick ++ lang) ++ ['\n']) body [btick]]
    exact window_ok _ _ (not_fence_suffix_one body hend)
  have hS2 : scanChars (((((List.replicate 3 btick ++ lang) ++ ['\n']) ++ body) ++ [btick])
        ++ [btick]) =
      { last := wlast (((((List.replicate 3 btick ++ lang) ++ ['\n']) ++ body) ++ [btick])
          ++ [btick])
        backticks := 3, in_language := false, in_code := true
        language := lang, code := (((lang ++ ['\n']) ++ body) ++ [btick]) ++ [btick] } := by
    rw [scanChars_append_one, hS1,
      scanStep_in_code_only _ btick rfl rfl (by decide) hw2 hw2, dequePush_wlast]
  have hw3 : wlast (((((List.replicate 3 btick ++ lang) ++ ['\n']) ++ body) ++ [btick])
        ++ [btick]) ≠ List.replicate 3 btick := by
    rw [List.append_assoc ((List.replicate 3 btick ++ lang) ++ ['\n']) body [btick],
      List.append_assoc ((List.replicate 3 btick ++ lang) ++ ['\n']) (body ++ [btick]) [btick]]
    exact window_ok _ _ (not_fence_suffix_two body hend)
  have hS3 : scanChars ((((((List.replicate 3 btick ++ lang) ++ ['\n']) ++ body) ++ [btick])
        ++ [btick]) ++ [btick]) =
      { last := wlast ((((((List.replicate 3 btick ++ lang) ++ ['\n']) ++ body) ++ [btick])
          ++ [btick]) ++ [btick])
        backticks := 3, in_language := false, in_code := true
        language := lang
        code := ((((lang ++ ['\n']) ++ body) ++ [btick]) ++ [btick]) ++ [btick] } := by
    rw [scanChars_append_one, hS2,
      scanStep_in_code_only _ btick rfl rfl (by decide) hw3 hw3, dequePush_wlast]
  rw [harg]
  have hhead : (((((((List.replicate 3 btick ++ lang) ++ ['\n']) ++ body) ++ [btick])
      ++ [btick]) ++ [btick]) : List Char).head? = some btick := rfl
  rw [codeblock_converter_eq_of_scan _ hhead, hS3]
  have hcode_ne : ¬ (((((lang ++ ['\n']) ++ body) ++ [btick]) ++ [btick]) ++ [btick] = []
      ∧ lang = []) := by
    rintro ⟨hc, -⟩
    simp at hc
  rw [if_neg hcode_ne, slice_of_wellformed]

/-- Witness for **C2** (amended) at `lang = "a"`, `body = "b"`:
scanning `"```a\nb```"` yields `("a", "\nb")`. -/
theorem C2_roundtrip_amended_witness :
    codeblock_converter
        (List.replicate 3 btick ++ ['a'] ++ ['\n'] ++ ['b'] ++ List.replicate 3 btick) =
      { language := some ['a'], content := ['\n', 'b'] } :=
  C2_roundtrip_amended ['a'] ['b'] (by decide) (by decide) (by decide) (by decide)

end Jishaku
